import Mathlib

/-!
Shallow embedding of `circuit/environment/src/helpers/assignment.rs` from the
snarkVM repository: the `Assignment` / `SameCircuitAssignment` data model and
the constraint-synthesis protocol (`generate_constraints`), together with the
nonzero-accounting functions.

Conventions of the embedding:
* `u64` / `usize` values are `Nat`; the explicitly written `saturating_add`
  of the source is modelled by `satAdd`, which saturates at `2^64 - 1`.
* `IndexMap` is an insertion-ordered association list.
* fallible Rust code returning `Result` is `Except` / `SynthRes`; a panic
  (`assert!`, `assert_eq!`, `unreachable!`, `.unwrap()`) is the `fatal`
  outcome, kept distinct from a returned (propagable) `SynthesisError`.
* the target constraint system (the external `snarkvm_algorithms::r1cs`
  collaborator) is a record of operations `CS F σ` over an abstract state,
  mirroring the Rust trait `ConstraintSystem<F>`; a concrete instance
  `modelCS` is modelled from the spec for concrete evaluation.
-/

/-- Maximum value of a `u64`. -/
def U64MAX : Nat := 2 ^ 64 - 1

/-- Rust `u64::saturating_add`. -/
def satAdd (a b : Nat) : Nat := min (a + b) U64MAX

/-- Variable index of the target (`snarkvm_algorithms::r1cs`) system:
`Index::Public(usize)` or `Index::Private(usize)`. -/
inductive RIndex where
  | Public (i : Nat)
  | Private (i : Nat)
deriving DecidableEq

/-- Modelled from the spec: the target system's typed synthesis error
(`snarkvm_algorithms::r1cs::SynthesisError`, an external collaborator);
only its identity matters to this layer, which never inspects it. -/
inductive SynthesisError where
  | allocationFailure
  | lookupFailure
deriving DecidableEq

/-- Modelled from the spec: a target-system linear combination
(`snarkvm_algorithms::r1cs::LinearCombination<F>`), accumulated term by
term with `+= (coefficient, variable)`; `zero()` is the empty list. -/
abbrev RLC (F : Type) := List (F × RIndex)

/-- Modelled from the spec: a lookup table is a predeclared list of rows,
each a triple of field values (`snarkvm_algorithms::r1cs::LookupTable<F>`,
an external collaborator). -/
abbrev LookupTable (F : Type) := List (F × F × F)

/-- An insertion-ordered association map (the `indexmap::IndexMap` used by
the source), kept as a list of key-value pairs in insertion order. -/
abbrev IndexMap (K V : Type) := List (K × V)

/-- `IndexMap::get`: the value stored at a key, if present. -/
def imLookup [DecidableEq K] : IndexMap K V → K → Option V
  | [], _ => none
  | (k', v') :: rest, k => if k' = k then some v' else imLookup rest k

/-- `IndexMap::insert`: replaces in place and returns the previous value when
the key is present, else appends and returns `none`. -/
def imInsert [DecidableEq K] : IndexMap K V → K → V → Option V × IndexMap K V
  | [], k, v => (none, [(k, v)])
  | (k', v') :: rest, k, v =>
    if k' = k then (some v', (k', v) :: rest)
    else
      let r := imInsert rest k v
      (r.1, (k', v') :: r.2)

/-- `AssignmentVariable<F>`: a constant, a public variable (by index), or a
private variable (by index). -/
inductive AssignmentVariable (F : Type) where
  | Constant (f : F)
  | Public (i : Nat)
  | Private (i : Nat)
deriving DecidableEq

/-- `AssignmentLC<F>`: a constant term plus an ordered map from variables to
coefficients. -/
structure AssignmentLC (F : Type) where
  constant : F
  terms : IndexMap (AssignmentVariable F) F
deriving DecidableEq

/-- `AssignmentLC::num_nonzeros`: the number of terms, incremented by one
(with `u64` saturation) when the constant is nonzero. -/
def AssignmentLC.num_nonzeros [DecidableEq F] [Zero F] (lc : AssignmentLC F) : Nat :=
  if lc.constant = 0 then lc.terms.length else satAdd lc.terms.length 1

/-- `Assignment<F>`: public inputs, private inputs, constraint triples,
lookup tables, and lookup-constraint triples with a table index.
(The Rust field `private` is spelled `priv` here; `private` is reserved.) -/
structure Assignment (F : Type) where
  public : IndexMap Nat F
  priv : IndexMap Nat F
  constraints : List (AssignmentLC F × AssignmentLC F × AssignmentLC F)
  tables : List (LookupTable F)
  lookup_constraints : List (AssignmentLC F × AssignmentLC F × AssignmentLC F × Nat)
deriving DecidableEq

/-- `Assignment::num_public`. -/
def Assignment.num_public (a : Assignment F) : Nat := a.public.length

/-- `Assignment::num_private`. -/
def Assignment.num_private (a : Assignment F) : Nat := a.priv.length

/-- `Assignment::num_constraints`. -/
def Assignment.num_constraints (a : Assignment F) : Nat := a.constraints.length

/-- `Assignment::num_lookup_tables`. -/
def Assignment.num_lookup_tables (a : Assignment F) : Nat := a.tables.length

/-- `Assignment::num_lookup_constraints`. -/
def Assignment.num_lookup_constraints (a : Assignment F) : Nat :=
  a.lookup_constraints.length

/-- `Assignment::num_nonzeros`: componentwise saturating sums of the
per-linear-combination nonzero counts over arithmetic constraints chained
with lookup constraints, starting from `(0, 0, 0)`. -/
def Assignment.num_nonzeros [DecidableEq F] [Zero F] (a : Assignment F) : Nat × Nat × Nat :=
  ((a.constraints.map fun t => (t.1.num_nonzeros, t.2.1.num_nonzeros, t.2.2.num_nonzeros)) ++
    (a.lookup_constraints.map fun t =>
      (t.1.num_nonzeros, t.2.1.num_nonzeros, t.2.2.1.num_nonzeros))).foldl
    (fun acc x => (satAdd acc.1 x.1, satAdd acc.2.1 x.2.1, satAdd acc.2.2 x.2.2)) (0, 0, 0)

/-- `PubAndPrivVariables<F>`: the optional override of public/private value
maps held by a `SameCircuitAssignment`. -/
structure PubAndPrivVariables (F : Type) where
  public : IndexMap Nat F
  priv : IndexMap Nat F
deriving DecidableEq

/-- `SameCircuitAssignment<F>`: an optional value override plus a shared base
`Assignment` (the `Arc` is dropped; the base is immutable either way; the
Rust field `variables` is spelled `vars`, `variables` being reserved). -/
structure SameCircuitAssignment (F : Type) where
  vars : Option (PubAndPrivVariables F)
  base : Assignment F
deriving DecidableEq

/-- `SameCircuitAssignment::create_with_base`: asserts that the base and the
override agree on public and private counts (a mismatch is the `fatal`
outcome, modelled by `none`), then keeps only the override's value maps. -/
def SameCircuitAssignment.create_with_base (base : Assignment F) (another : Assignment F) :
    Option (SameCircuitAssignment F) :=
  if base.num_public = another.num_public then
    if base.num_private = another.num_private then
      some ⟨some ⟨another.public, another.priv⟩, base⟩
    else none
  else none

/-- `SameCircuitAssignment::single_one`: wraps an `Assignment` as its own base
with no override. -/
def SameCircuitAssignment.single_one (base : Assignment F) : SameCircuitAssignment F :=
  ⟨none, base⟩

/-- `SameCircuitAssignment::public_inputs`: the override's public map when
present, else the base's. -/
def SameCircuitAssignment.public_inputs (s : SameCircuitAssignment F) : IndexMap Nat F :=
  match s.vars with
  | some v => v.public
  | none => s.base.public

/-- `SameCircuitAssignment::private_inputs`: the override's private map when
present, else the base's. -/
def SameCircuitAssignment.private_inputs (s : SameCircuitAssignment F) : IndexMap Nat F :=
  match s.vars with
  | some v => v.priv
  | none => s.base.priv

/-- `SameCircuitAssignment::num_public`. -/
def SameCircuitAssignment.num_public (s : SameCircuitAssignment F) : Nat :=
  s.public_inputs.length

/-- `SameCircuitAssignment::num_private`. -/
def SameCircuitAssignment.num_private (s : SameCircuitAssignment F) : Nat :=
  s.private_inputs.length

/-- The target constraint system, mirroring the Rust trait
`snarkvm_algorithms::r1cs::ConstraintSystem<F>` over an abstract state `σ`
(the annotation closures, which only produce labels, are dropped; the value
closures passed by the source are always `Ok(value)`, so values are passed
directly). `allocInput` / `alloc` return the allocated variable's `RIndex`
(the Rust `Variable` is a newtype over `Index`, read by `get_unchecked`). -/
structure CS (F : Type) (σ : Type) where
  numPublicVariables : σ → Nat
  numPrivateVariables : σ → Nat
  numConstraints : σ → Nat
  allocInput : σ → F → Except SynthesisError (RIndex × σ)
  alloc : σ → F → Except SynthesisError (RIndex × σ)
  enforce : σ → RLC F → RLC F → RLC F → σ
  addLookupTable : σ → LookupTable F → σ
  enforceLookup : σ → RLC F → RLC F → RLC F → Nat → Except SynthesisError σ

/-- Outcome of a synthesis step: success, a returned (propagable)
`SynthesisError`, or a fatal panic (`assert!` / `unreachable!` / `unwrap`). -/
inductive SynthRes (α : Type) where
  | ok (a : α)
  | err (e : SynthesisError)
  | fatal
deriving DecidableEq

/-- The `Converter` struct: the translation table from first-system variable
indices to second-system variables, for public and private variables.
(The Rust field `private` is spelled `priv` here.) -/
structure Converter where
  public : IndexMap Nat RIndex
  priv : IndexMap Nat RIndex
deriving DecidableEq

/-- The public-allocation loop of `generate_constraints`: for each
`(index, value)` at position `i`, assert `i == index`, allocate a target
public variable (`?` propagates its error), assert the allocated variable is
`Index::Public(index + 1)`, and insert `index ↦ gadget` into the converter,
asserting no previous entry existed. -/
def allocPublics (impl : CS F σ) :
    IndexMap Nat F → Nat → IndexMap Nat RIndex → σ → SynthRes (IndexMap Nat RIndex × σ)
  | [], _, conv, cs => .ok (conv, cs)
  | (index, value) :: rest, i, conv, cs =>
    if i = index then
      match impl.allocInput cs value with
      | .error e => .err e
      | .ok (gadget, cs') =>
        if RIndex.Public (index + 1) = gadget then
          match imInsert conv index gadget with
          | (some _, _) => .fatal
          | (none, conv') => allocPublics impl rest (i + 1) conv' cs'
        else .fatal
    else .fatal

/-- The private-allocation loop of `generate_constraints`: as `allocPublics`
but allocating private variables, with the allocated variable asserted to be
`Index::Private(i)` (no off-by-one). -/
def allocPrivates (impl : CS F σ) :
    IndexMap Nat F → Nat → IndexMap Nat RIndex → σ → SynthRes (IndexMap Nat RIndex × σ)
  | [], _, conv, cs => .ok (conv, cs)
  | (index, value) :: rest, i, conv, cs =>
    if i = index then
      match impl.alloc cs value with
      | .error e => .err e
      | .ok (gadget, cs') =>
        if RIndex.Private i = gadget then
          match imInsert conv index gadget with
          | (some _, _) => .fatal
          | (none, conv') => allocPrivates impl rest (i + 1) conv' cs'
        else .fatal
    else .fatal

/-- The term loop of `convert_linear_combination`: processes each
`(variable, coefficient)` in source order, accumulating
`(coefficient, gadget)` onto the target linear combination; a `Constant`
variable is `unreachable!`, a missing translation-table entry is an
`unwrap` panic, and a translated variable at the wrong slot is an
assertion failure — all modelled by `none`. -/
def convertTerms (conv : Converter) :
    IndexMap (AssignmentVariable F) F → RLC F → Option (RLC F)
  | [], acc => some acc
  | (v, coefficient) :: rest, acc =>
    match v with
    | .Constant _ => none
    | .Public index =>
      match imLookup conv.public index with
      | none => none
      | some gadget =>
        if RIndex.Public (index + 1) = gadget then
          convertTerms conv rest (acc ++ [(coefficient, gadget)])
        else none
    | .Private index =>
      match imLookup conv.priv index with
      | none => none
      | some gadget =>
        if RIndex.Private index = gadget then
          convertTerms conv rest (acc ++ [(coefficient, gadget)])
        else none

/-- `convert_linear_combination`: starts from the zero target linear
combination, converts every term in source order, then adds the constant
as a coefficient on the implicit "one" variable (`Index::Public(0)`) iff
the constant is nonzero. -/
def convert_linear_combination [DecidableEq F] [Zero F] (conv : Converter)
    (lc : AssignmentLC F) : Option (RLC F) :=
  match convertTerms conv lc.terms [] with
  | none => none
  | some out =>
    if lc.constant = 0 then some out else some (out ++ [(lc.constant, RIndex.Public 0)])

/-- The constraint-enforcement loop of `generate_constraints`: converts the
three sides of each triple in order (a conversion panic is `none`) and calls
the target system's infallible `enforce`. -/
def enforceConstraints [DecidableEq F] [Zero F] (impl : CS F σ) (conv : Converter) :
    List (AssignmentLC F × AssignmentLC F × AssignmentLC F) → σ → Option σ
  | [], cs => some cs
  | (a, b, c) :: rest, cs =>
    match convert_linear_combination conv a with
    | none => none
    | some la =>
      match convert_linear_combination conv b with
      | none => none
      | some lb =>
        match convert_linear_combination conv c with
        | none => none
        | some lcc => enforceConstraints impl conv rest (impl.enforce cs la lb lcc)

/-- The lookup-table registration loop of `generate_constraints`. -/
def addTables (impl : CS F σ) (tables : List (LookupTable F)) (cs : σ) : σ :=
  tables.foldl impl.addLookupTable cs

/-- The lookup-constraint enforcement loop of `generate_constraints`:
converts the three sides of each tuple and calls the target system's
fallible `enforce_lookup` with the table index (`?` propagates its error). -/
def enforceLookups [DecidableEq F] [Zero F] (impl : CS F σ) (conv : Converter) :
    List (AssignmentLC F × AssignmentLC F × AssignmentLC F × Nat) → σ → SynthRes σ
  | [], cs => .ok cs
  | (a, b, c, tableIndex) :: rest, cs =>
    match convert_linear_combination conv a with
    | none => .fatal
    | some la =>
      match convert_linear_combination conv b with
      | none => .fatal
      | some lb =>
        match convert_linear_combination conv c with
        | none => .fatal
        | some lcc =>
          match impl.enforceLookup cs la lb lcc tableIndex with
          | .error e => .err e
          | .ok cs' => enforceLookups impl conv rest cs'

/-- `<Assignment as ConstraintSynthesizer>::generate_constraints`: asserts
the target system is clean (one public variable, zero private variables,
zero constraints), allocates public then private variables, enforces the
constraints, registers the lookup tables, enforces the lookup constraints,
and finally asserts the target system's sizes match the assignment's.
Returns the final target state on success (the Rust function mutates `cs`
in place and returns `Ok(())`). -/
def Assignment.generate_constraints [DecidableEq F] [Zero F] (impl : CS F σ)
    (a : Assignment F) (cs : σ) : SynthRes σ :=
  if impl.numPublicVariables cs = 1 then
    if impl.numPrivateVariables cs = 0 then
      if impl.numConstraints cs = 0 then
        match allocPublics impl a.public 0 [] cs with
        | .err e => .err e
        | .fatal => .fatal
        | .ok (cpub, cs1) =>
          match allocPrivates impl a.priv 0 [] cs1 with
          | .err e => .err e
          | .fatal => .fatal
          | .ok (cprv, cs2) =>
            match enforceConstraints impl ⟨cpub, cprv⟩ a.constraints cs2 with
            | none => .fatal
            | some cs3 =>
              match enforceLookups impl ⟨cpub, cprv⟩ a.lookup_constraints
                  (addTables impl a.tables cs3) with
              | .err e => .err e
              | .fatal => .fatal
              | .ok cs4 =>
                if impl.numPublicVariables cs4 = a.num_public + 1 then
                  if impl.numPrivateVariables cs4 = a.num_private then
                    if impl.numConstraints cs4 = a.num_constraints + a.num_lookup_constraints
                    then .ok cs4
                    else .fatal
                  else .fatal
                else .fatal
      else .fatal
    else .fatal
  else .fatal

/-- `<SameCircuitAssignment as ConstraintSynthesizer>::generate_constraints`:
the same protocol, reading variable values from `public_inputs()` /
`private_inputs()` and structural data (constraints, tables, lookup
constraints, and the structural counts of the final assertions) from `base`. -/
def SameCircuitAssignment.generate_constraints [DecidableEq F] [Zero F] (impl : CS F σ)
    (s : SameCircuitAssignment F) (cs : σ) : SynthRes σ :=
  if impl.numPublicVariables cs = 1 then
    if impl.numPrivateVariables cs = 0 then
      if impl.numConstraints cs = 0 then
        match allocPublics impl s.public_inputs 0 [] cs with
        | .err e => .err e
        | .fatal => .fatal
        | .ok (cpub, cs1) =>
          match allocPrivates impl s.private_inputs 0 [] cs1 with
          | .err e => .err e
          | .fatal => .fatal
          | .ok (cprv, cs2) =>
            match enforceConstraints impl ⟨cpub, cprv⟩ s.base.constraints cs2 with
            | none => .fatal
            | some cs3 =>
              match enforceLookups impl ⟨cpub, cprv⟩ s.base.lookup_constraints
                  (addTables impl s.base.tables cs3) with
              | .err e => .err e
              | .fatal => .fatal
              | .ok cs4 =>
                if impl.numPublicVariables cs4 = s.num_public + 1 then
                  if impl.numPrivateVariables cs4 = s.num_private then
                    if impl.numConstraints cs4 =
                        s.base.num_constraints + s.base.num_lookup_constraints
                    then .ok cs4
                    else .fatal
                  else .fatal
                else .fatal
      else .fatal
    else .fatal
  else .fatal

/-- Modelled from the spec: the state of a concrete target constraint
system (the external gadget system, e.g. `TestConstraintSystem`), holding
the public variable values (slot 0 is the implicit "one"), private variable
values, enforced constraint triples, registered lookup tables, and enforced
lookup constraints. -/
structure ModelState (F : Type) where
  pubVals : List F
  prvVals : List F
  constraints : List (RLC F × RLC F × RLC F)
  tables : List (LookupTable F)
  lookups : List (RLC F × RLC F × RLC F × Nat)
deriving DecidableEq

/-- Modelled from the spec: a freshly created target system — exactly the
implicit "one" public variable (value one), zero private variables, zero
constraints, no tables. -/
def freshModelState [One F] : ModelState F := ⟨[1], [], [], [], []⟩

/-- Modelled from the spec: the concrete target constraint system.
Allocation appends a value and returns the variable at the next free slot;
`enforce` records the triple; `enforceLookup` rejects an out-of-range table
index with a propagated error, else records the lookup constraint; the
constraint count covers arithmetic and lookup constraints. -/
def modelCS (F : Type) : CS F (ModelState F) where
  numPublicVariables s := s.pubVals.length
  numPrivateVariables s := s.prvVals.length
  numConstraints s := s.constraints.length + s.lookups.length
  allocInput s v := .ok (RIndex.Public s.pubVals.length, { s with pubVals := s.pubVals ++ [v] })
  alloc s v := .ok (RIndex.Private s.prvVals.length, { s with prvVals := s.prvVals ++ [v] })
  enforce s a b c := { s with constraints := s.constraints ++ [(a, b, c)] }
  addLookupTable s t := { s with tables := s.tables ++ [t] }
  enforceLookup s a b c t :=
    if t < s.tables.length then .ok { s with lookups := s.lookups ++ [(a, b, c, t)] }
    else .error .lookupFailure

/-- Modelled from the spec: the value of a target-system variable under a
model state's assignment (out-of-range variables read as zero). -/
def evalRIndex [Zero F] (s : ModelState F) : RIndex → F
  | .Public i => s.pubVals.getD i 0
  | .Private i => s.prvVals.getD i 0

/-- Modelled from the spec: the evaluation of a target linear combination —
the sum over its terms of coefficient times variable value. -/
def evalRLC [Zero F] [Add F] [Mul F] (s : ModelState F) (l : RLC F) : F :=
  l.foldl (fun acc t => acc + t.1 * evalRIndex s t.2) 0

/-- Modelled from the spec: a model state is satisfied when every recorded
arithmetic constraint has `eval A * eval B = eval C` and every recorded
lookup constraint's evaluation triple appears as a row of its table. -/
def ModelState.isSatisfied [DecidableEq F] [Zero F] [Add F] [Mul F]
    (s : ModelState F) : Bool :=
  (s.constraints.all fun t =>
    evalRLC s t.1 * evalRLC s t.2.1 = evalRLC s t.2.2) &&
  (s.lookups.all fun t =>
    (s.tables.getD t.2.2.2 []).contains (evalRLC s t.1, evalRLC s t.2.1, evalRLC s t.2.2.1))

/-- The `SameCircuitAssignment` synthesis body is the `Assignment` synthesis
body applied to the resolved value maps and the base's structural data. -/
theorem scGen_eq_gen {F σ : Type} [DecidableEq F] [Zero F] (impl : CS F σ)
    (s : SameCircuitAssignment F) (cs : σ) :
    SameCircuitAssignment.generate_constraints impl s cs =
      Assignment.generate_constraints impl
        ⟨s.public_inputs, s.private_inputs, s.base.constraints, s.base.tables,
          s.base.lookup_constraints⟩ cs := rfl

/-- A successful `Assignment::generate_constraints` run passed the final
size assertions, so the target system's counts match the assignment's. -/
theorem gen_ok_counts {F σ : Type} [DecidableEq F] [Zero F] (impl : CS F σ)
    (a : Assignment F) (cs cs' : σ)
    (h : Assignment.generate_constraints impl a cs = .ok cs') :
    impl.numPublicVariables cs' = a.num_public + 1 ∧
      impl.numPrivateVariables cs' = a.num_private ∧
      impl.numConstraints cs' = a.num_constraints + a.num_lookup_constraints := by
  unfold Assignment.generate_constraints at h
  repeat' split at h
  all_goals simp_all

/-- C1: for every Assignment (or SameCircuitAssignment) on which
`generate_constraints` returns success on a fresh target system, at return
the target system's public-variable count equals the assignment's
`num_public()` plus 1, its private-variable count equals `num_private()`,
and its constraint count equals `num_constraints()` plus
`num_lookup_constraints()`. -/
theorem c1_roundtrip_counts {F σ : Type} [DecidableEq F] [Zero F] (impl : CS F σ)
    (a : Assignment F) (s : SameCircuitAssignment F) (cs cs' cs'' : σ) :
    (Assignment.generate_constraints impl a cs = .ok cs' →
      impl.numPublicVariables cs' = a.num_public + 1 ∧
        impl.numPrivateVariables cs' = a.num_private ∧
        impl.numConstraints cs' = a.num_constraints + a.num_lookup_constraints) ∧
    (SameCircuitAssignment.generate_constraints impl s cs = .ok cs'' →
      impl.numPublicVariables cs'' = s.num_public + 1 ∧
        impl.numPrivateVariables cs'' = s.num_private ∧
        impl.numConstraints cs'' = s.base.num_constraints + s.base.num_lookup_constraints) := by
  constructor
  · exact gen_ok_counts impl a cs cs'
  · intro h
    rw [scGen_eq_gen] at h
    exact gen_ok_counts impl _ cs cs'' h

/-- C6: `generate_constraints` (for both `Assignment` and
`SameCircuitAssignment`) asserts, before any allocation, that the target
system holds exactly one public variable, zero private variables, and zero
constraints; a target system not in this state is a fatal assertion
failure, not a returned error. -/
theorem c6_clean_start_assert {F σ : Type} [DecidableEq F] [Zero F] (impl : CS F σ)
    (a : Assignment F) (s : SameCircuitAssignment F) (cs : σ)
    (h : impl.numPublicVariables cs ≠ 1 ∨ impl.numPrivateVariables cs ≠ 0 ∨
      impl.numConstraints cs ≠ 0) :
    Assignment.generate_constraints impl a cs = .fatal ∧
      SameCircuitAssignment.generate_constraints impl s cs = .fatal := by
  rw [scGen_eq_gen]
  constructor <;>
  · unfold Assignment.generate_constraints
    rcases h with h | h | h <;> simp [h]

/-- C7: synthesizing `SameCircuitAssignment::single_one(A)` produces exactly
the same result (success/error outcome, allocations, and constraints) as
synthesizing `A` directly, for every target system and starting state. -/
theorem c7_single_one_equiv {F σ : Type} [DecidableEq F] [Zero F] (impl : CS F σ)
    (a : Assignment F) (cs : σ) :
    SameCircuitAssignment.generate_constraints impl (SameCircuitAssignment.single_one a) cs =
      Assignment.generate_constraints impl a cs := rfl

/-- An assignment with one public input of value 5 and nothing else, used as
a concrete evaluation fixture. -/
def exA : Assignment Int := ⟨[(0, 5)], [], [], [], []⟩

/-- The target-system state produced by synthesizing `exA` into a fresh
model system. -/
def exAFinal : ModelState Int := ⟨[1, 5], [], [], [], []⟩

/-- A target-system state that is not freshly created: two public variables. -/
def exDirty : ModelState Int := ⟨[1, 2], [], [], [], []⟩

/-- Witness for C1: the round-trip counts at the concrete fixture `exA`,
for both assignment kinds. -/
theorem c1_roundtrip_counts_witness :
    ((modelCS Int).numPublicVariables exAFinal = exA.num_public + 1 ∧
      (modelCS Int).numPrivateVariables exAFinal = exA.num_private ∧
      (modelCS Int).numConstraints exAFinal =
        exA.num_constraints + exA.num_lookup_constraints) ∧
    ((modelCS Int).numPublicVariables exAFinal =
        (SameCircuitAssignment.single_one exA).num_public + 1 ∧
      (modelCS Int).numPrivateVariables exAFinal =
        (SameCircuitAssignment.single_one exA).num_private ∧
      (modelCS Int).numConstraints exAFinal =
        (SameCircuitAssignment.single_one exA).base.num_constraints +
          (SameCircuitAssignment.single_one exA).base.num_lookup_constraints) :=
  ⟨(c1_roundtrip_counts (modelCS Int) exA (SameCircuitAssignment.single_one exA)
      freshModelState exAFinal exAFinal).1 (by decide),
    (c1_roundtrip_counts (modelCS Int) exA (SameCircuitAssignment.single_one exA)
      freshModelState exAFinal exAFinal).2 (by decide)⟩

/-- Witness for C6: a non-fresh target state (two public variables) makes
both synthesis entry points fail fatally. -/
theorem c6_clean_start_assert_witness :
    Assignment.generate_constraints (modelCS Int) exA exDirty = .fatal ∧
      SameCircuitAssignment.generate_constraints (modelCS Int)
        (SameCircuitAssignment.single_one exA) exDirty = .fatal :=
  c6_clean_start_assert (modelCS Int) exA (SameCircuitAssignment.single_one exA) exDirty
    (Or.inl (by decide))

/-- Inserting a key absent from an ordered map appends it and reports no
previous entry. -/
theorem imInsert_not_mem {V : Type} (m : IndexMap Nat V) (k : Nat) (v : V)
    (h : ∀ p ∈ m, p.1 ≠ k) : imInsert m k v = (none, m ++ [(k, v)]) := by
  induction m with
  | nil => rfl
  | cons q rest ih =>
    obtain ⟨k', v'⟩ := q
    have hq : k' ≠ k := h (k', v') (by simp)
    have hrest := ih fun p hp => h p (by simp [hp])
    simp [imInsert, hq, hrest]

/-- The public-allocation loop on the model system: when the remaining keys
continue the ascending run starting at `i` and the state already holds
`i + 1` public variables, every allocation succeeds, source index `k` is
translated to target public slot `k + 1`, and the values are appended in
order. -/
theorem allocPublics_model_ok {F : Type} (pubs : IndexMap Nat F) :
    ∀ (i : Nat) (conv : IndexMap Nat RIndex) (s : ModelState F),
    s.pubVals.length = i + 1 → (∀ p ∈ conv, p.1 < i) →
    pubs.map Prod.fst = List.range' i pubs.length →
    allocPublics (modelCS F) pubs i conv s =
      .ok (conv ++ pubs.map fun p => (p.1, RIndex.Public (p.1 + 1)),
        { s with pubVals := s.pubVals ++ pubs.map Prod.snd }) := by
  induction pubs with
  | nil => intro i conv s _ _ _; simp [allocPublics]
  | cons q rest ih =>
    intro i conv s hlen hconv hkeys
    obtain ⟨index, value⟩ := q
    simp only [List.length_cons] at hkeys
    rw [List.range'_succ] at hkeys
    simp only [List.map_cons, List.cons.injEq] at hkeys
    obtain ⟨hidx, hrest⟩ := hkeys
    subst hidx
    have hins := imInsert_not_mem conv index (RIndex.Public (index + 1))
      (fun p hp => Nat.ne_of_lt (hconv p hp))
    have hih := ih (index + 1) (conv ++ [(index, RIndex.Public (index + 1))])
      { s with pubVals := s.pubVals ++ [value] }
      (by simp [hlen])
      (by intro p hp
          rcases List.mem_append.mp hp with h | h
          · exact Nat.lt_succ_of_lt (hconv p h)
          · simp at h; simp [h])
      hrest
    simp [allocPublics, modelCS, hlen, hins]
    simpa [modelCS] using hih

/-- The public-allocation loop on the model system: when the remaining keys
deviate anywhere from the ascending run starting at `i`, the loop is a
fatal assertion failure. -/
theorem allocPublics_model_fatal {F : Type} (pubs : IndexMap Nat F) :
    ∀ (i : Nat) (conv : IndexMap Nat RIndex) (s : ModelState F),
    s.pubVals.length = i + 1 → (∀ p ∈ conv, p.1 < i) →
    pubs.map Prod.fst ≠ List.range' i pubs.length →
    allocPublics (modelCS F) pubs i conv s = .fatal := by
  induction pubs with
  | nil => intro i conv s _ _ hkeys; simp at hkeys
  | cons q rest ih =>
    intro i conv s hlen hconv hkeys
    obtain ⟨index, value⟩ := q
    by_cases hidx : i = index
    · subst hidx
      simp only [List.length_cons] at hkeys
      rw [List.range'_succ] at hkeys
      simp only [List.map_cons, List.cons.injEq, true_and] at hkeys
      have hne : List.map Prod.fst rest ≠ List.range' (i + 1) rest.length := by
        simpa using hkeys
      have hins := imInsert_not_mem conv i (RIndex.Public (i + 1))
        (fun p hp => Nat.ne_of_lt (hconv p hp))
      have hih := ih (i + 1) (conv ++ [(i, RIndex.Public (i + 1))])
        { s with pubVals := s.pubVals ++ [value] }
        (by simp [hlen])
        (by intro p hp
            rcases List.mem_append.mp hp with h | h
            · exact Nat.lt_succ_of_lt (hconv p h)
            · simp at h; simp [h])
        hne
      simp [allocPublics, modelCS, hlen, hins]
      simpa [modelCS] using hih
    · simp [allocPublics, hidx]

/-- The private-allocation loop on the model system: when the remaining keys
continue the ascending run starting at `i` and the state already holds `i`
private variables, every allocation succeeds, source index `k` is translated
to target private slot `k` (no offset), and the values are appended in
order. -/
theorem allocPrivates_model_ok {F : Type} (privs : IndexMap Nat F) :
    ∀ (i : Nat) (conv : IndexMap Nat RIndex) (s : ModelState F),
    s.prvVals.length = i → (∀ p ∈ conv, p.1 < i) →
    privs.map Prod.fst = List.range' i privs.length →
    allocPrivates (modelCS F) privs i conv s =
      .ok (conv ++ privs.map fun p => (p.1, RIndex.Private p.1),
        { s with prvVals := s.prvVals ++ privs.map Prod.snd }) := by
  induction privs with
  | nil => intro i conv s _ _ _; simp [allocPrivates]
  | cons q rest ih =>
    intro i conv s hlen hconv hkeys
    obtain ⟨index, value⟩ := q
    simp only [List.length_cons] at hkeys
    rw [List.range'_succ] at hkeys
    simp only [List.map_cons, List.cons.injEq] at hkeys
    obtain ⟨hidx, hrest⟩ := hkeys
    subst hidx
    have hins := imInsert_not_mem conv index (RIndex.Private index)
      (fun p hp => Nat.ne_of_lt (hconv p hp))
    have hih := ih (index + 1) (conv ++ [(index, RIndex.Private index)])
      { s with prvVals := s.prvVals ++ [value] }
      (by simp [hlen])
      (by intro p hp
          rcases List.mem_append.mp hp with h | h
          · exact Nat.lt_succ_of_lt (hconv p h)
          · simp at h; simp [h])
      hrest
    simp [allocPrivates, modelCS, hlen, hins]
    simpa [modelCS] using hih

/-- The private-allocation loop on the model system: when the remaining keys
deviate anywhere from the ascending run starting at `i`, the loop is a
fatal assertion failure. -/
theorem allocPrivates_model_fatal {F : Type} (privs : IndexMap Nat F) :
    ∀ (i : Nat) (conv : IndexMap Nat RIndex) (s : ModelState F),
    s.prvVals.length = i → (∀ p ∈ conv, p.1 < i) →
    privs.map Prod.fst ≠ List.range' i privs.length →
    allocPrivates (modelCS F) privs i conv s = .fatal := by
  induction privs with
  | nil => intro i conv s _ _ hkeys; simp at hkeys
  | cons q rest ih =>
    intro i conv s hlen hconv hkeys
    obtain ⟨index, value⟩ := q
    by_cases hidx : i = index
    · subst hidx
      simp only [List.length_cons] at hkeys
      rw [List.range'_succ] at hkeys
      simp only [List.map_cons, List.cons.injEq, true_and] at hkeys
      have hne : List.map Prod.fst rest ≠ List.range' (i + 1) rest.length := by
        simpa using hkeys
      have hins := imInsert_not_mem conv i (RIndex.Private i)
        (fun p hp => Nat.ne_of_lt (hconv p hp))
      have hih := ih (i + 1) (conv ++ [(i, RIndex.Private i)])
        { s with prvVals := s.prvVals ++ [value] }
        (by simp [hlen])
        (by intro p hp
            rcases List.mem_append.mp hp with h | h
            · exact Nat.lt_succ_of_lt (hconv p h)
            · simp at h; simp [h])
        hne
      simp [allocPrivates, modelCS, hlen, hins]
      simpa [modelCS] using hih
    · simp [allocPrivates, hidx]

/-- C2: during synthesis of an assignment whose public map has keys exactly
`0..P-1` in ascending iteration order and whose private map has keys exactly
`0..R-1` in ascending order, every freshly allocated target variable for
public index `i` occupies public slot `i + 1` (the off-by-one for the
implicit "one" at slot 0) and every private index `i` occupies private slot
`i`; any deviation from this ordering is a fatal assertion failure. Stated
over the allocation phases of `generate_constraints` on the model target
system: starting from a fresh state, the public loop succeeds exactly when
the keys are `0..P-1` in order — recording translation `k ↦ Public (k+1)`
and placing value `k` at state position `k + 1` — and is fatal otherwise;
the private loop (on any state with no private variables yet) succeeds
exactly when the keys are `0..R-1` in order — recording `k ↦ Private k` and
placing value `k` at position `k` — and is fatal otherwise. -/
theorem c2_index_alignment {F : Type} [One F] (pubs privs : IndexMap Nat F)
    (s : ModelState F) :
    (pubs.map Prod.fst = List.range pubs.length →
      allocPublics (modelCS F) pubs 0 [] freshModelState =
        .ok (pubs.map fun p => (p.1, RIndex.Public (p.1 + 1)),
          { freshModelState with pubVals := freshModelState.pubVals ++ pubs.map Prod.snd })) ∧
    (pubs.map Prod.fst ≠ List.range pubs.length →
      allocPublics (modelCS F) pubs 0 [] freshModelState = .fatal) ∧
    (s.prvVals = [] → privs.map Prod.fst = List.range privs.length →
      allocPrivates (modelCS F) privs 0 [] s =
        .ok (privs.map fun p => (p.1, RIndex.Private p.1),
          { s with prvVals := privs.map Prod.snd })) ∧
    (s.prvVals = [] → privs.map Prod.fst ≠ List.range privs.length →
      allocPrivates (modelCS F) privs 0 [] s = .fatal) := by
  refine ⟨fun h => ?_, fun h => ?_, fun hs h => ?_, fun hs h => ?_⟩
  · exact allocPublics_model_ok pubs 0 [] freshModelState rfl (by simp)
      (by rwa [List.range_eq_range'] at h)
  · exact allocPublics_model_fatal pubs 0 [] freshModelState rfl (by simp)
      (by rwa [List.range_eq_range'] at h)
  · have := allocPrivates_model_ok privs 0 [] s (by simp [hs]) (by simp)
      (by rwa [List.range_eq_range'] at h)
    simpa [hs] using this
  · exact allocPrivates_model_fatal privs 0 [] s (by simp [hs]) (by simp)
      (by rwa [List.range_eq_range'] at h)

/-- Witness for C2: ascending keys `[0, 1]` succeed with slots `1, 2` in the
public loop and key `[0]` lands in private slot `0`; a public map starting
at key `1` and a private map starting at key `2` are fatal. -/
theorem c2_index_alignment_witness :
    (allocPublics (modelCS Int) [(0, 5), (1, 7)] 0 [] freshModelState =
      .ok ([(0, RIndex.Public 1), (1, RIndex.Public 2)],
        ⟨[1, 5, 7], [], [], [], []⟩)) ∧
    (allocPrivates (modelCS Int) [(0, 3)] 0 [] (⟨[1, 5, 7], [], [], [], []⟩ : ModelState Int) =
      .ok ([(0, RIndex.Private 0)], ⟨[1, 5, 7], [3], [], [], []⟩)) ∧
    (allocPublics (modelCS Int) [(1, 5)] 0 [] freshModelState = .fatal) ∧
    (allocPrivates (modelCS Int) [(2, 3)] 0 []
      (⟨[1, 5, 7], [], [], [], []⟩ : ModelState Int) = .fatal) := by
  refine ⟨?_, ?_, ?_, ?_⟩
  · have := (c2_index_alignment [(0, 5), (1, 7)] ([] : IndexMap Nat Int)
      freshModelState).1 (by decide)
    simpa [freshModelState] using this
  · have := (c2_index_alignment ([] : IndexMap Nat Int) [(0, 3)]
      (⟨[1, 5, 7], [], [], [], []⟩ : ModelState Int)).2.2.1 rfl (by decide)
    simpa using this
  · exact (c2_index_alignment [(1, 5)] ([] : IndexMap Nat Int)
      freshModelState).2.1 (by decide)
  · exact (c2_index_alignment ([] : IndexMap Nat Int) [(2, 3)]
      (⟨[1, 5, 7], [], [], [], []⟩ : ModelState Int)).2.2.2 rfl (by decide)

/-- A returned error of the public-allocation loop always originates from an
`alloc_input` call of the target system. -/
theorem allocPublics_err {F σ : Type} (impl : CS F σ) (pubs : IndexMap Nat F) :
    ∀ (i : Nat) (conv : IndexMap Nat RIndex) (cs : σ) (e : SynthesisError),
    allocPublics impl pubs i conv cs = .err e →
    ∃ st v, impl.allocInput st v = .error e := by
  induction pubs with
  | nil => intro i conv cs e h; simp [allocPublics] at h
  | cons q rest ih =>
    intro i conv cs e h
    obtain ⟨index, value⟩ := q
    simp only [allocPublics] at h
    repeat' split at h
    all_goals first
      | exact SynthRes.noConfusion h
      | exact ih _ _ _ _ h
      | (injection h with h1; subst h1; exact ⟨cs, value, by assumption⟩)

/-- A returned error of the private-allocation loop always originates from an
`alloc` call of the target system. -/
theorem allocPrivates_err {F σ : Type} (impl : CS F σ) (privs : IndexMap Nat F) :
    ∀ (i : Nat) (conv : IndexMap Nat RIndex) (cs : σ) (e : SynthesisError),
    allocPrivates impl privs i conv cs = .err e →
    ∃ st v, impl.alloc st v = .error e := by
  induction privs with
  | nil => intro i conv cs e h; simp [allocPrivates] at h
  | cons q rest ih =>
    intro i conv cs e h
    obtain ⟨index, value⟩ := q
    simp only [allocPrivates] at h
    repeat' split at h
    all_goals first
      | exact SynthRes.noConfusion h
      | exact ih _ _ _ _ h
      | (injection h with h1; subst h1; exact ⟨cs, value, by assumption⟩)

/-- A returned error of the lookup-constraint enforcement loop always
originates from an `enforce_lookup` call of the target system. -/
theorem enforceLookups_err {F σ : Type} [DecidableEq F] [Zero F] (impl : CS F σ)
    (conv : Converter) (lks : List (AssignmentLC F × AssignmentLC F × AssignmentLC F × Nat)) :
    ∀ (cs : σ) (e : SynthesisError),
    enforceLookups impl conv lks cs = .err e →
    ∃ st la lb lc t, impl.enforceLookup st la lb lc t = .error e := by
  induction lks with
  | nil => intro cs e h; simp [enforceLookups] at h
  | cons q rest ih =>
    intro cs e h
    obtain ⟨a, b, c, t⟩ := q
    simp only [enforceLookups] at h
    repeat' split at h
    all_goals first
      | exact SynthRes.noConfusion h
      | exact ih _ _ h
      | (injection h with h1; subst h1; exact ⟨cs, _, _, _, t, by assumption⟩)

/-- Any error returned by `Assignment::generate_constraints` was produced by
the target system's `alloc_input`, `alloc`, or `enforce_lookup`. -/
theorem gen_err_provenance {F σ : Type} [DecidableEq F] [Zero F] (impl : CS F σ)
    (a : Assignment F) (cs : σ) (e : SynthesisError)
    (h : Assignment.generate_constraints impl a cs = .err e) :
    (∃ st v, impl.allocInput st v = .error e) ∨
      (∃ st v, impl.alloc st v = .error e) ∨
      (∃ st la lb lc t, impl.enforceLookup st la lb lc t = .error e) := by
  unfold Assignment.generate_constraints at h
  repeat' split at h
  all_goals first
    | exact SynthRes.noConfusion h
    | (injection h with h1; subst h1;
       first
         | exact Or.inl (allocPublics_err impl _ _ _ _ _ (by assumption))
         | exact Or.inr (Or.inl (allocPrivates_err impl _ _ _ _ _ (by assumption)))
         | exact Or.inr (Or.inr (enforceLookups_err impl _ _ _ _ (by assumption))))

/-- C3 (amended): any propagable error returned by `generate_constraints`
(either assignment kind) originates from the target system's variable
allocation calls (steps 1-2) or its lookup-constraint enforcement call
(step 6); every failure path internal to the protocol itself is a fatal
assertion, never a returned error. -/
theorem c3_error_surface {F σ : Type} [DecidableEq F] [Zero F] (impl : CS F σ)
    (a : Assignment F) (s : SameCircuitAssignment F) (cs : σ) (e : SynthesisError)
    (h : Assignment.generate_constraints impl a cs = .err e ∨
      SameCircuitAssignment.generate_constraints impl s cs = .err e) :
    (∃ st v, impl.allocInput st v = .error e) ∨
      (∃ st v, impl.alloc st v = .error e) ∨
      (∃ st la lb lc t, impl.enforceLookup st la lb lc t = .error e) := by
  rcases h with h | h
  · exact gen_err_provenance impl a cs e h
  · rw [scGen_eq_gen] at h
    exact gen_err_provenance impl _ cs e h

/-- Modelled from the spec: a legal implementation of the target
constraint-system trait whose allocation calls reject (return a typed
synthesis error) — the trait's `alloc_input` / `alloc` return `Result`, and
the spec's error-handling section names "the external prover/gadget system
rejecting an allocation" as a propagated failure. -/
def failCS : CS Int Unit where
  numPublicVariables _ := 1
  numPrivateVariables _ := 0
  numConstraints _ := 0
  allocInput _ _ := .error .allocationFailure
  alloc _ _ := .error .allocationFailure
  enforce s _ _ _ := s
  addLookupTable s _ := s
  enforceLookup s _ _ _ _ := .ok s

/-- Counterexample for C3 as stated: on an assignment with no lookup
constraints at all (step 6 never runs), `generate_constraints` still
returns a propagable synthesis error to the caller — produced by the public
variable allocation of step 1 — rather than failing fatally. -/
theorem c3_counterexample :
    Assignment.generate_constraints failCS exA () = .err .allocationFailure ∧
      exA.lookup_constraints = [] := by
  constructor
  · rfl
  · rfl

/-- Witness for C3 (amended): an out-of-range lookup-table index in the
model system propagates a lookup error, and the provenance theorem traces
it to one of the three fallible target-system calls. -/
theorem c3_error_surface_witness :
    (∃ st v, (modelCS Int).allocInput st v = .error .lookupFailure) ∨
      (∃ st v, (modelCS Int).alloc st v = .error .lookupFailure) ∨
      (∃ st la lb lc t, (modelCS Int).enforceLookup st la lb lc t =
        .error SynthesisError.lookupFailure) :=
  c3_error_surface (modelCS Int)
    ⟨[(0, 1)], [], [], [], [(⟨1, []⟩, ⟨1, []⟩, ⟨1, []⟩, 5)]⟩
    (SameCircuitAssignment.single_one exA) freshModelState .lookupFailure
    (Or.inl (by decide))

/-- C4: constructing a `SameCircuitAssignment` via `create_with_base` from a
base `X` and an override `Y` succeeds iff `Y`'s public and private counts
equal `X`'s (a mismatch is the fatal outcome); on success,
`public_inputs()` / `private_inputs()` return `Y`'s value maps while
synthesis sources constraints, tables, and lookup constraints from `X`
unchanged. -/
theorem c4_structural_sharing {F : Type} [DecidableEq F] [Zero F] (X Y : Assignment F) :
    ((SameCircuitAssignment.create_with_base X Y).isSome ↔
      (X.num_public = Y.num_public ∧ X.num_private = Y.num_private)) ∧
    (∀ sc, SameCircuitAssignment.create_with_base X Y = some sc →
      sc.public_inputs = Y.public ∧ sc.private_inputs = Y.priv ∧ sc.base = X ∧
      (∀ (σ : Type) (impl : CS F σ) (cs : σ),
        SameCircuitAssignment.generate_constraints impl sc cs =
          Assignment.generate_constraints impl
            ⟨Y.public, Y.priv, X.constraints, X.tables, X.lookup_constraints⟩ cs)) := by
  constructor
  · unfold SameCircuitAssignment.create_with_base
    by_cases h1 : X.num_public = Y.num_public <;>
      by_cases h2 : X.num_private = Y.num_private <;> simp [h1, h2]
  · intro sc hsc
    unfold SameCircuitAssignment.create_with_base at hsc
    by_cases h1 : X.num_public = Y.num_public <;>
      by_cases h2 : X.num_private = Y.num_private <;> simp [h1, h2] at hsc
    subst hsc
    refine ⟨rfl, rfl, rfl, ?_⟩
    intro σ impl cs
    rw [scGen_eq_gen]
    rfl

/-- An override assignment with the same shape as `exA` but a different
public value. -/
def exY : Assignment Int := ⟨[(0, 9)], [], [], [], []⟩

/-- The shared-structure assignment built from base `exA` and override `exY`. -/
def exSC : SameCircuitAssignment Int := ⟨some ⟨exY.public, exY.priv⟩, exA⟩

/-- Witness for C4: the concrete construction from `exA` and `exY` succeeds,
reports the override's values, and synthesizes from the base's structure. -/
theorem c4_structural_sharing_witness :
    (SameCircuitAssignment.create_with_base exA exY).isSome ∧
      exSC.public_inputs = exY.public ∧ exSC.private_inputs = exY.priv ∧
      exSC.base = exA ∧
      SameCircuitAssignment.generate_constraints (modelCS Int) exSC freshModelState =
        Assignment.generate_constraints (modelCS Int)
          ⟨exY.public, exY.priv, exA.constraints, exA.tables, exA.lookup_constraints⟩
          freshModelState := by
  have h2 := (c4_structural_sharing exA exY).2 exSC (by decide)
  exact ⟨(c4_structural_sharing exA exY).1.mpr (by decide), h2.1, h2.2.1, h2.2.2.1,
    h2.2.2.2 (ModelState Int) (modelCS Int) freshModelState⟩

/-- Statement-side description of term translation for C5: a `Constant`
identity never translates (the protocol treats it as unreachable), a
`Public(i)` / `Private(i)` translates to its translation-table entry
provided that entry sits at the protocol's offset (`Public (i+1)` /
`Private i`), and is untranslatable when absent. -/
def translateVar (conv : Converter) : AssignmentVariable F → Option RIndex
  | .Constant _ => none
  | .Public i =>
    match imLookup conv.public i with
    | some g => if RIndex.Public (i + 1) = g then some g else none
    | none => none
  | .Private i =>
    match imLookup conv.priv i with
    | some g => if RIndex.Private i = g then some g else none
    | none => none

/-- Statement-side description of the term loop for C5: translate every
`(variable, coefficient)` term in source order into `(coefficient, target)`
pairs, failing when any single term fails to translate. -/
def translateTerms (conv : Converter) :
    IndexMap (AssignmentVariable F) F → Option (RLC F)
  | [] => some []
  | (v, c) :: rest =>
    match translateVar conv v, translateTerms conv rest with
    | some g, some out => some ((c, g) :: out)
    | _, _ => none

/-- The accumulator-based term loop of `convert_linear_combination` computes
the one-shot translation of the terms, appended to the accumulator. -/
theorem convertTerms_eq (conv : Converter) (terms : IndexMap (AssignmentVariable F) F) :
    ∀ acc, convertTerms conv terms acc =
      (translateTerms conv terms).map fun out => acc ++ out := by
  induction terms with
  | nil => intro acc; simp [convertTerms, translateTerms]
  | cons q rest ih =>
    intro acc
    obtain ⟨v, c⟩ := q
    cases v with
    | Constant f => simp [convertTerms, translateTerms, translateVar]
    | Public i =>
      cases hg : imLookup conv.public i with
      | none => simp [convertTerms, translateTerms, translateVar, hg]
      | some g =>
        by_cases hcheck : RIndex.Public (i + 1) = g
        · cases hrest : translateTerms conv rest with
          | none => simp [convertTerms, translateTerms, translateVar, hg, hcheck, ih, hrest]
          | some out => simp [convertTerms, translateTerms, translateVar, hg, hcheck, ih, hrest]
        · simp [convertTerms, translateTerms, translateVar, hg, hcheck]
    | Private i =>
      cases hg : imLookup conv.priv i with
      | none => simp [convertTerms, translateTerms, translateVar, hg]
      | some g =>
        by_cases hcheck : RIndex.Private i = g
        · cases hrest : translateTerms conv rest with
          | none => simp [convertTerms, translateTerms, translateVar, hg, hcheck, ih, hrest]
          | some out => simp [convertTerms, translateTerms, translateVar, hg, hcheck, ih, hrest]
        · simp [convertTerms, translateTerms, translateVar, hg, hcheck]

/-- C5: `convert_linear_combination` starts from the zero target linear
combination and accumulates `coefficient * translated-variable` for each
term in source iteration order — failing fatally exactly when a term's
variable is a `Constant` identity, is missing from the translation table,
or sits at the wrong slot (`translateVar` is `none` for those cases) — and
afterwards appends the constant as a coefficient on the implicit "one"
variable at target public slot 0 if and only if the constant is nonzero. -/
theorem c5_convert_linear_combination {F : Type} [DecidableEq F] [Zero F]
    (conv : Converter) (lc : AssignmentLC F) :
    convert_linear_combination conv lc =
      (translateTerms conv lc.terms).map
        fun ts => if lc.constant = 0 then ts else ts ++ [(lc.constant, RIndex.Public 0)] := by
  unfold convert_linear_combination
  rw [convertTerms_eq conv lc.terms []]
  cases translateTerms conv lc.terms with
  | none => rfl
  | some out => by_cases h : lc.constant = 0 <;> simp [h]

/-- A linear combination with nonzero constant and `2^64 - 1` terms — the
saturation boundary of the `u64` nonzero counter. -/
def lcBig : AssignmentLC Int :=
  ⟨1, List.replicate (2 ^ 64 - 1) (AssignmentVariable.Public 0, 1)⟩

/-- Counterexample for C8 as stated: at `n = 2^64 - 1` terms with nonzero
constant, `num_nonzeros` saturates at `2^64 - 1` instead of returning
`n + 1`. -/
theorem c8_counterexample :
    lcBig.constant ≠ 0 ∧
      AssignmentLC.num_nonzeros lcBig ≠ lcBig.terms.length + 1 := by
  constructor
  · decide
  · simp only [AssignmentLC.num_nonzeros, lcBig, List.length_replicate, satAdd, U64MAX]
    norm_num

/-- C8 (amended): for every `AssignmentLC` with `n` entries in its terms
map, `num_nonzeros()` returns exactly `n` when the constant term is zero;
when the constant term is nonzero it returns `n + 1` whenever that fits in
a `u64`, and in general the `u64`-saturated value `min (n + 1) (2^64 - 1)`. -/
theorem c8_num_nonzeros {F : Type} [DecidableEq F] [Zero F] (lc : AssignmentLC F) :
    (lc.constant = 0 → lc.num_nonzeros = lc.terms.length) ∧
      (lc.constant ≠ 0 → lc.terms.length + 1 ≤ U64MAX →
        lc.num_nonzeros = lc.terms.length + 1) ∧
      (lc.constant ≠ 0 → lc.num_nonzeros = min (lc.terms.length + 1) U64MAX) := by
  refine ⟨fun h => by simp [AssignmentLC.num_nonzeros, h], fun h hle => ?_,
    fun h => by simp [AssignmentLC.num_nonzeros, h, satAdd]⟩
  simp [AssignmentLC.num_nonzeros, h, satAdd, Nat.min_eq_left hle]

/-- Witness for C8 (amended): a zero-constant combination with one term
reports 1 nonzero; a nonzero-constant combination with two terms reports 3. -/
theorem c8_num_nonzeros_witness :
    AssignmentLC.num_nonzeros (⟨0, [(AssignmentVariable.Public 0, 1)]⟩ : AssignmentLC Int) =
      1 ∧
    AssignmentLC.num_nonzeros
        (⟨1, [(AssignmentVariable.Public 0, 1), (AssignmentVariable.Private 0, 2)]⟩ :
          AssignmentLC Int) = 3 :=
  ⟨(c8_num_nonzeros ⟨0, [(AssignmentVariable.Public 0, 1)]⟩).1 (by decide),
    (c8_num_nonzeros
      ⟨1, [(AssignmentVariable.Public 0, 1), (AssignmentVariable.Private 0, 2)]⟩).2.1
      (by decide) (by decide)⟩

/-- A left fold of saturating additions computes the saturated sum. -/
theorem foldl_satAdd (xs : List Nat) :
    ∀ acc, acc ≤ U64MAX → xs.foldl satAdd acc = min (acc + xs.sum) U64MAX := by
  induction xs with
  | nil => intro acc h; simpa using (Nat.min_eq_left h).symm
  | cons x xs ih =>
    intro acc h
    simp only [List.foldl_cons, List.sum_cons]
    rw [ih (satAdd acc x) (Nat.min_le_right _ _)]
    simp only [satAdd]
    omega

/-- The componentwise saturating fold over triples computes the three scalar
folds. -/
theorem foldl3_components (l : List (Nat × Nat × Nat)) :
    ∀ acc : Nat × Nat × Nat,
    l.foldl (fun a x => (satAdd a.1 x.1, satAdd a.2.1 x.2.1, satAdd a.2.2 x.2.2)) acc =
      ((l.map fun t => t.1).foldl satAdd acc.1,
        (l.map fun t => t.2.1).foldl satAdd acc.2.1,
        (l.map fun t => t.2.2).foldl satAdd acc.2.2) := by
  induction l with
  | nil => intro acc; simp
  | cons x l ih => intro acc; simp [ih]

/-- C10: `Assignment::num_nonzeros` returns the componentwise totals of the
per-linear-combination nonzero counts over both the arithmetic constraints
and the lookup constraints, accumulated with saturating `u64` addition —
each component is the `u64`-saturated componentwise sum, and in particular
never exceeds `2^64 - 1` (no wrap-around). -/
theorem c10_num_nonzeros_saturating {F : Type} [DecidableEq F] [Zero F]
    (a : Assignment F) :
    a.num_nonzeros =
      (min ((a.constraints.map fun t => t.1.num_nonzeros) ++
          (a.lookup_constraints.map fun t => t.1.num_nonzeros)).sum U64MAX,
        min ((a.constraints.map fun t => t.2.1.num_nonzeros) ++
          (a.lookup_constraints.map fun t => t.2.1.num_nonzeros)).sum U64MAX,
        min ((a.constraints.map fun t => t.2.2.num_nonzeros) ++
          (a.lookup_constraints.map fun t => t.2.2.1.num_nonzeros)).sum U64MAX) ∧
      a.num_nonzeros.1 ≤ U64MAX ∧ a.num_nonzeros.2.1 ≤ U64MAX ∧
        a.num_nonzeros.2.2 ≤ U64MAX := by
  have heq : a.num_nonzeros =
      (min ((a.constraints.map fun t => t.1.num_nonzeros) ++
          (a.lookup_constraints.map fun t => t.1.num_nonzeros)).sum U64MAX,
        min ((a.constraints.map fun t => t.2.1.num_nonzeros) ++
          (a.lookup_constraints.map fun t => t.2.1.num_nonzeros)).sum U64MAX,
        min ((a.constraints.map fun t => t.2.2.num_nonzeros) ++
          (a.lookup_constraints.map fun t => t.2.2.1.num_nonzeros)).sum U64MAX) := by
    unfold Assignment.num_nonzeros
    rw [foldl3_components]
    rw [foldl_satAdd _ _ (Nat.zero_le _), foldl_satAdd _ _ (Nat.zero_le _),
      foldl_satAdd _ _ (Nat.zero_le _)]
    simp [List.map_map, Function.comp_def]
  refine ⟨heq, ?_, ?_, ?_⟩ <;> rw [heq] <;> exact Nat.min_le_right _ _

/-- C9: synthesis is deterministic — running `generate_constraints` for the
same Assignment on two independently created fresh model target systems
yields identical results, hence identical public/private/constraint counts
and identical constraint-satisfaction results. -/
theorem c9_deterministic_synthesis {F : Type} [DecidableEq F] [Zero F] [One F]
    [Add F] [Mul F] (a : Assignment F) (cs0 cs1 : ModelState F)
    (h0 : cs0 = freshModelState) (h1 : cs1 = freshModelState) :
    Assignment.generate_constraints (modelCS F) a cs0 =
      Assignment.generate_constraints (modelCS F) a cs1 ∧
    ∀ s0 s1, Assignment.generate_constraints (modelCS F) a cs0 = .ok s0 →
      Assignment.generate_constraints (modelCS F) a cs1 = .ok s1 →
      (modelCS F).numPublicVariables s0 = (modelCS F).numPublicVariables s1 ∧
        (modelCS F).numPrivateVariables s0 = (modelCS F).numPrivateVariables s1 ∧
        (modelCS F).numConstraints s0 = (modelCS F).numConstraints s1 ∧
        s0.isSatisfied = s1.isSatisfied := by
  subst h0
  subst h1
  refine ⟨rfl, ?_⟩
  intro s0 s1 hA hB
  rw [hA] at hB
  injection hB with h
  subst h
  exact ⟨rfl, rfl, rfl, rfl⟩

/-- Witness for C9: two fresh runs on `exA` agree, and the resulting states
agree on all counts and on satisfaction. -/
theorem c9_deterministic_synthesis_witness :
    Assignment.generate_constraints (modelCS Int) exA freshModelState =
      Assignment.generate_constraints (modelCS Int) exA freshModelState ∧
    ((modelCS Int).numPublicVariables exAFinal = (modelCS Int).numPublicVariables exAFinal ∧
      (modelCS Int).numPrivateVariables exAFinal = (modelCS Int).numPrivateVariables exAFinal ∧
      (modelCS Int).numConstraints exAFinal = (modelCS Int).numConstraints exAFinal ∧
      exAFinal.isSatisfied = exAFinal.isSatisfied) :=
  ⟨(c9_deterministic_synthesis exA freshModelState freshModelState rfl rfl).1,
    (c9_deterministic_synthesis exA freshModelState freshModelState rfl rfl).2
      exAFinal exAFinal (by decide) (by decide)⟩
